import Mathlib

/-
Verification development for the TDS Virtual TA retrieval-and-answer pipeline.

The development shallowly embeds the core of the repository:
  * the chunker of scripts/build_db.py (Python textwrap.wrap with default
    options at CHUNK_SIZE characters),
  * the retrieval, prompt-building, quality-gate and fallback logic of
    app/rag.py (init_rag, _retrieve, _handle_image, _ask_ai_pipe,
    answer_question).

External collaborators (SQLite, FAISS, the fastembed embedding model, the
requests HTTP client, base64 decoding, textwrap.shorten for link previews)
are embedded through their documented observable behaviour; where behaviour
is an oracle of the environment (network outcome, embedding similarity
ranking, base64 decodability) it is a function-valued parameter of the
model, so that theorems can quantify over every possible behaviour.
-/

/-- Whitespace characters of Python's string module constant used by
textwrap (tab, newline, vertical tab, form feed, carriage return, space). -/
def isWrapWs (c : Char) : Bool :=
  c = '\t' || c = '\n' || c = '\x0b' || c = '\x0c' || c = '\r' || c = ' '

/-- Unicode whitespace as recognised by Python str.strip and str.isspace
(code points with the Unicode whitespace property). -/
def isPyStripWs (c : Char) : Bool :=
  (0x09 ≤ c.toNat && c.toNat ≤ 0x0d) || c.toNat = 0x20 ||
  (0x1c ≤ c.toNat && c.toNat ≤ 0x1f) || c.toNat = 0x85 || c.toNat = 0xa0 ||
  c.toNat = 0x1680 || (0x2000 ≤ c.toNat && c.toNat ≤ 0x200a) ||
  c.toNat = 0x2028 || c.toNat = 0x2029 || c.toNat = 0x202f ||
  c.toNat = 0x205f || c.toNat = 0x3000

/-- Python str.expandtabs: each tab is replaced by spaces up to the next
multiple of tabsize; the column is reset to zero after a newline or a
carriage return. -/
def expandTabsAux (tabsize : Nat) : Nat → List Char → List Char
  | _, [] => []
  | col, c :: rest =>
    if c = '\t' then
      let k := tabsize - col % tabsize
      List.replicate k ' ' ++ expandTabsAux tabsize (col + k) rest
    else if c = '\n' || c = '\r' then
      c :: expandTabsAux tabsize 0 rest
    else
      c :: expandTabsAux tabsize (col + 1) rest

/-- Python str.expandtabs entry point (column starts at zero). -/
def expandTabs (tabsize : Nat) (s : List Char) : List Char :=
  expandTabsAux tabsize 0 s

/-- textwrap.TextWrapper._munge_whitespace with the default options of
textwrap.wrap (expand_tabs = True with tabsize 8, replace_whitespace =
True): tabs are expanded, then every whitespace character is replaced by a
single space. -/
def munge (s : List Char) : List Char :=
  (expandTabs 8 s).map (fun c => if isWrapWs c then ' ' else c)

/-- Helper of splitRuns: accumulates the current maximal run (in reverse)
whose characters all have whitespace-class curWs. -/
def splitRunsAux (cur : List Char) (curWs : Bool) : List Char → List (List Char)
  | [] => [cur.reverse]
  | c :: rest =>
    if isWrapWs c = curWs then splitRunsAux (c :: cur) curWs rest
    else cur.reverse :: splitRunsAux [c] (isWrapWs c) rest

/-- textwrap.TextWrapper._split on already munged text: the text is cut
into maximal alternating runs of whitespace and non-whitespace characters
(no run is empty).  The default break_on_hyphens option additionally
subdivides non-whitespace runs after certain hyphens; that refinement only
adds more break opportunities inside words and is omitted here — none of
the properties proved below depend on it, and the concrete inputs used in
the theorems contain no hyphens. -/
def splitRuns : List Char → List (List Char)
  | [] => []
  | c :: rest => splitRunsAux [c] (isWrapWs c) rest

/-- Sum of the lengths of a list of chunks (textwrap's cur_len). -/
def sumLen (cs : List (List Char)) : Nat := (cs.map List.length).sum

/-- Inner loop of textwrap.TextWrapper._wrap_chunks: greedily take chunks
while the accumulated length stays within width; returns the taken prefix
and the untouched remainder. -/
def takeFits (width : Nat) : Nat → List (List Char) → List (List Char) × List (List Char)
  | _, [] => ([], [])
  | cur, c :: rest =>
    if cur + c.length ≤ width then
      let p := takeFits width (cur + c.length) rest
      (c :: p.1, p.2)
    else ([], c :: rest)

/-- Python chunk.strip() == '' test: every character is whitespace. -/
def pyStripEmpty (c : List Char) : Bool := c.all isPyStripWs

/-- Start of a _wrap_chunks iteration with drop_whitespace = True: if lines
were already produced and the next chunk is pure whitespace, it is
dropped. -/
def dropLeadingWs (hasLines : Bool) : List (List Char) → List (List Char)
  | [] => []
  | c :: rest => if hasLines && pyStripEmpty c then rest else c :: rest

/-- textwrap.TextWrapper._handle_long_word with break_long_words = True:
when the next chunk is longer than width, the part that still fits on the
current line (at least one character when width < 1) is moved onto the
line and the rest of the chunk is put back. -/
def longWordAdjust (width curLen : Nat) (fits : List (List Char)) :
    List (List Char) → List (List Char) × List (List Char)
  | [] => (fits, [])
  | d :: rest =>
    if width < d.length then
      let sl := if width < 1 then 1 else width - curLen
      (fits ++ [d.take sl], d.drop sl :: rest)
    else (fits, d :: rest)

/-- End of a _wrap_chunks iteration with drop_whitespace = True: the last
chunk of the current line is dropped when it is pure whitespace (a single
deletion, matching the Python code). -/
def dropTrailingWsPiece : List (List Char) → List (List Char)
  | [] => []
  | [c] => if pyStripEmpty c then [] else [c]
  | c :: rest => c :: dropTrailingWsPiece rest

/-- One iteration of the outer loop of textwrap.TextWrapper._wrap_chunks
(default options, no indents, no max_lines): returns the produced line, if
any, and the remaining chunks. -/
def wrapLine (width : Nat) (hasLines : Bool) (chunks : List (List Char)) :
    Option (List Char) × List (List Char) :=
  let cs1 := dropLeadingWs hasLines chunks
  let tf := takeFits width 0 cs1
  let la := longWordAdjust width (sumLen tf.1) tf.1 tf.2
  let curLine := dropTrailingWsPiece la.1
  (if curLine.isEmpty then none else some curLine.flatten, la.2)

/-- Outer loop of textwrap.TextWrapper._wrap_chunks, written with explicit
fuel; every iteration strictly decreases the total character count plus the
chunk count, so the fuel supplied by textwrapWrap is never exhausted. -/
def wrapChunksFuel (width : Nat) : Nat → Bool → List (List Char) → List (List Char)
  | 0, _, _ => []
  | _ + 1, _, [] => []
  | f + 1, hasLines, c :: rest =>
    let r := wrapLine width hasLines (c :: rest)
    match r.1 with
    | some l => l :: wrapChunksFuel width f true r.2
    | none => wrapChunksFuel width f hasLines r.2

/-- Python textwrap.wrap(text, width) with default options: munge the
whitespace, split into chunks, and reassemble greedy lines. -/
def textwrapWrap (width : Nat) (s : String) : List String :=
  let chunks := splitRuns (munge s.data)
  (wrapChunksFuel width (sumLen chunks + chunks.length + 1) false chunks).map String.mk

/-- Characters-per-chunk budget of scripts/build_db.py. -/
def CHUNK_SIZE : Nat := 1000

/-- The chunker of scripts/build_db.py insert_chunks: chunks =
textwrap.wrap(body, CHUNK_SIZE). -/
def chunkDocument (body : String) : List String := textwrapWrap CHUNK_SIZE body

/-- Occurrence test for a contiguous character sequence, the model of the
Python substring operator `needle in haystack`. -/
def containsSub (needle : List Char) : List Char → Bool
  | [] => needle.isEmpty
  | c :: rest => needle.isPrefixOf (c :: rest) || containsSub needle rest

/-- Prefix of a character sequence before the first occurrence of marker
(the whole sequence when the marker does not occur); the model of Python
s.split(marker, 1)[0]. -/
def splitBefore (marker : List Char) : List Char → List Char
  | [] => []
  | c :: rest => if marker.isPrefixOf (c :: rest) then [] else c :: splitBefore marker rest

/-- ChainProp ps s: the pieces of ps occur in s verbatim, in order and
without overlap (each piece occurs inside the remainder that follows the
previous piece). -/
def ChainProp : List (List Char) → List Char → Prop
  | [], _ => True
  | p :: ps, s => ∃ a b, s = a ++ p ++ b ∧ ChainProp ps b

/-- Executable version of ChainProp, searching all occurrence positions. -/
def chainB : List (List Char) → List Char → Bool
  | [], _ => true
  | p :: ps, s =>
    (List.range (s.length + 1)).any (fun i =>
      decide ((s.drop i).take p.length = p) && chainB ps (s.drop (i + p.length)))

/-- Executable suffix test on character sequences. -/
def endsWithB (tail s : List Char) : Bool :=
  decide (s.drop (s.length - tail.length) = tail)

/-- The produced line of a wrapLine step, empty when no line was produced. -/
def lineOf : Option (List Char) → List Char
  | some l => l
  | none => []

/-- Exceptions that the embedded Python code can raise. -/
inductive PyError where
  | keyError
  | runtimeError
  | otherError
deriving DecidableEq, Repr

/-- A row of one of the two chunk tables of knowledge_base.db, with the
columns selected by _retrieve (id, text, source_url). -/
structure ChunkRow where
  id : String
  text : String
  source_url : String
deriving DecidableEq, Repr

/-- The corpus store: the two partitions markdown_chunks and
discourse_chunks, each a list of rows in storage (insertion) order. -/
structure KnowledgeDb where
  markdown_chunks : List ChunkRow
  discourse_chunks : List ChunkRow
deriving DecidableEq, Repr

/-- Model of the UNION ALL query of _retrieve (app/rag.py lines 56-66):
SELECT id, text, source_url FROM markdown_chunks WHERE id IN (...) UNION
ALL the same over discourse_chunks.  The query has no ORDER BY, so SQLite
returns the matching rows of each table in its own scan order (modelled as
storage order), the markdown partition first — not in the order of the id
list.  SQLite evaluates `expr IN ()` with an empty right-hand list as
false, so an empty id list yields an empty result rather than an error. -/
def sqlFetch (db : KnowledgeDb) (ids : List String) : List ChunkRow :=
  db.markdown_chunks.filter (fun r => ids.contains r.id)
    ++ db.discourse_chunks.filter (fun r => ids.contains r.id)

/-- The loaded FAISS index together with the query embedding step: ntotal
is the number of stored vectors, and rank q is the similarity order
(most-similar first) that inner-product search over the stored vectors
induces for the query q — the composition of the fastembed embedding and
the scoring, which are external collaborators. -/
structure FaissIndex where
  ntotal : Nat
  rank : String → List Nat

/-- FAISS Index.search(q, k) label output: the k nearest ordinals,
most-similar first; when fewer than k vectors are stored, the missing
slots are filled with the label -1 (documented FAISS behaviour). -/
def FaissIndex.search (idx : FaissIndex) (q : String) (k : Nat) : List Int :=
  ((idx.rank q).take (min k idx.ntotal)).map (fun n => (n : Int))
    ++ List.replicate (k - min k idx.ntotal) (-1 : Int)

/-- Retrieval fan-out of app/rag.py. -/
def TOP_K : Nat := 6

/-- Translation of search ordinals to chunk ids (app/rag.py line 54):
ids = [state["id_map"][str(i)] for i in I[0]].  A dictionary lookup of an
ordinal missing from the id map raises KeyError. -/
def translateIds (idMap : List (String × String)) (ords : List Int) :
    Except PyError (List String) :=
  ords.mapM (fun i =>
    match idMap.lookup (toString i) with
    | some cid => Except.ok cid
    | none => Except.error PyError.keyError)

/-- The state dictionary built by init_rag: the database connection, the
FAISS index (with the embedder folded into rank) and the id map. -/
structure RagState where
  db : KnowledgeDb
  index : FaissIndex
  idMap : List (String × String)

/-- Model of _retrieve (app/rag.py lines 51-66): search the index with
TOP_K, translate the returned ordinals through the id map, and fetch the
matching rows from both partitions; a KeyError from the translation
propagates. -/
def retrieveChunks (st : RagState) (query : String) : Except PyError (List ChunkRow) :=
  match translateIds st.idMap (st.index.search query TOP_K) with
  | Except.error e => Except.error e
  | Except.ok ids => Except.ok (sqlFetch st.db ids)

/-- Runtime environment of answer_question: process configuration and the
behaviour of the external collaborators.  chatCall is the observable
outcome of requests.post plus response parsing and .strip() inside
_ask_ai_pipe (any of its failure modes is an error value); shortenFn is
textwrap.shorten(text, width=120, placeholder
 = the ellipsis) used for link previews; decodeB64 is the outcome of
base64.b64decode in _handle_image. -/
structure RuntimeEnv where
  aipipeKey : Option String
  chatCall : String → Except PyError String
  shortenFn : String → String
  decodeB64 : String → Except String Unit

/-- Python truthiness of `not AIPIPE_KEY`: the key is missing when the
environment variable is unset (None) or set to the empty string. -/
def keyMissing : Option String → Bool
  | none => true
  | some k => k = ""

/-- Model of _ask_ai_pipe (app/rag.py lines 85-116): when the key is
missing a RuntimeError is raised before the network request is attempted
(the result therefore does not depend on chatCall); otherwise the outcome
of the network call and response parsing is returned. -/
def askAiPipe (key : Option String) (call : String → Except PyError String)
    (prompt : String) : Except PyError String :=
  if keyMissing key then Except.error PyError.runtimeError else call prompt

/-- The fixed acknowledgment of _handle_image (app/rag.py line 79). -/
def imageNote : String := "🔍 Image received (current version does not analyze images)."

/-- Model of _handle_image (app/rag.py lines 70-81): decode and save the
image (saving is a side effect with no observable result) and return the
fixed note; if decoding raises, return an error note carrying the
exception text instead. -/
def handleImage (env : RuntimeEnv) (imageB64 : String) : String :=
  match env.decodeB64 imageB64 with
  | Except.ok _ => imageNote
  | Except.error e => "⚠️  Image could not be processed: " ++ e

/-- Python text.replace("\n", " "). -/
def replaceNewlines (s : String) : String :=
  String.mk (s.data.map (fun c => if c = '\n' then ' ' else c))

/-- Python str.strip(): remove leading and trailing whitespace. -/
def pyStrip (s : String) : String :=
  String.mk (((s.data.dropWhile isPyStripWs).reverse.dropWhile isPyStripWs).reverse)

/-- The embedded image-reference marker "![" (app/rag.py line 134). -/
def imgMarker : List Char := ['!', '[']

/-- Cleaning of one passage text in answer_question (lines 133-135):
newlines become spaces, the result is stripped, and text containing the
image marker is cut before its first occurrence. -/
def cleanPassageText (t : String) : String :=
  let base := pyStrip (replaceNewlines t)
  if containsSub imgMarker base.data then String.mk (splitBefore imgMarker base.data)
  else base

/-- One numbered passage line: f"(Passage {i}) {text}". -/
def taggedPassage (i : Nat) (r : ChunkRow) : String :=
  "(Passage " ++ toString i ++ ") " ++ cleanPassageText r.text

/-- The cleaned passages in retrieved order, numbered from 1
(enumerate(passages, 1)). -/
def taggedPassages (ps : List ChunkRow) : List String :=
  (List.enumFrom 1 ps).map (fun ip => taggedPassage ip.1 ip.2)

/-- Python sep.join(parts). -/
def joinSep (sep : String) : List String → String
  | [] => ""
  | [x] => x
  | x :: xs => x ++ sep ++ joinSep sep xs

/-- The context block: "\n\n".join(cleaned_passages). -/
def contextOf (ps : List ChunkRow) : String :=
  joinSep "\n\n" (taggedPassages ps)

/-- The fixed instruction text preceding the passages in the prompt
(app/rag.py lines 140-142). -/
def promptPreamble : String :=
  "You are a helpful TA for IIT‑M’s Tools in Data Science course.\nUse the following forum passages to answer the student’s question. Be concise (3–4 sentences) and cite passage numbers like (Passage 2) if needed.\n\n"

/-- The full generation prompt (app/rag.py lines 139-146). -/
def promptOf (ps : List ChunkRow) (question : String) : String :=
  promptPreamble ++ contextOf ps ++ "\n\nQuestion: " ++ question ++ "\n\nAnswer:"

/-- The fixed apology with which every fallback answer starts
(app/rag.py lines 151, 154). -/
def apologyText : String :=
  "Sorry, I had trouble generating a concise answer. Here are relevant passages:\n\n---\n\n"

/-- The synthetic fallback answer: apology plus the context truncated to
its first 1500 characters (context[:1500]). -/
def apologyAnswerOf (context : String) : String :=
  apologyText ++ String.mk (context.data.take 1500)

/-- The low-quality gate of app/rag.py line 150: empty answer, the
apologetic marker, or the context-echo marker. -/
def isLowQuality (a : String) : Bool :=
  a = "" || containsSub "I’m sorry".data a.data ||
    containsSub "Based on the provided context".data a.data

/-- True when the generation outcome triggers the fallback: the call
raised, or it returned a low-quality answer. -/
def genFails : Except PyError String → Bool
  | Except.error _ => true
  | Except.ok a => isLowQuality a

/-- The fixed zero-results answer (app/rag.py line 129). -/
def noDocsAnswer : String := "I couldn't find any relevant documents."

/-- A citation link entry: source URL plus a shortened preview. -/
structure AnswerLink where
  url : String
  text : String
deriving DecidableEq, Repr

/-- The response dictionary of answer_question. -/
structure RagAnswer where
  answer : String
  links : List AnswerLink
deriving DecidableEq, Repr

/-- The try/except plus low-quality check of app/rag.py lines 148-155:
when the generation call raised, or returned an empty or low-quality
answer, the generated text is discarded and the synthetic fallback answer
is produced; otherwise the generated answer is kept. -/
def qualityGate (o : Except PyError String) (context : String) : String :=
  match o with
  | Except.ok a => if isLowQuality a then apologyAnswerOf context else a
  | Except.error _ => apologyAnswerOf context

/-- The image step of app/rag.py lines 157-158: when the image payload is
truthy (present and non-empty), two newlines and the image note are
appended to the answer. -/
def appendImageNote (env : RuntimeEnv) (image : Option String) (answer : String) : String :=
  match image with
  | some img => if img = "" then answer else answer ++ "\n\n" ++ handleImage env img
  | none => answer

/-- Model of answer_question (app/rag.py lines 120-160): retrieve, build
links, short-circuit on zero passages, build the prompt, call the
generator behind the quality gate and fallback, and append the image note
when a truthy (non-empty) image payload is present.  Exceptions from
retrieval propagate; generation failures are absorbed. -/
def answer_question (env : RuntimeEnv) (st : RagState) (question : String)
    (image : Option String) : Except PyError RagAnswer :=
  match retrieveChunks st question with
  | Except.error e => Except.error e
  | Except.ok passages =>
    let links := passages.map (fun p =>
      AnswerLink.mk p.source_url (env.shortenFn (replaceNewlines p.text)))
    if passages.isEmpty then Except.ok ⟨noDocsAnswer, links⟩
    else
      let answer0 :=
        qualityGate (askAiPipe env.aipipeKey env.chatCall (promptOf passages question))
          (contextOf passages)
      Except.ok ⟨appendImageNote env image answer0, links⟩

/-- What init_rag finds on disk: whether each persisted artifact file
exists, and the contents loaded when it does. -/
structure DiskArtifacts where
  indexFilePresent : Bool
  idMapFilePresent : Bool
  diskIndex : FaissIndex
  diskIdMap : List (String × String)
  diskDb : KnowledgeDb

/-- Model of init_rag (app/rag.py lines 38-47): raise RuntimeError when
either the index file or the id-map file is missing; otherwise load both
together with the database connection and return the state.  No other
validation is performed — in particular the vector count of the index and
the entry count of the id map are not compared, and the generation API key
is not consulted. -/
def init_rag (a : DiskArtifacts) : Except PyError RagState :=
  if a.indexFilePresent && a.idMapFilePresent then
    Except.ok ⟨a.diskDb, a.diskIndex, a.diskIdMap⟩
  else Except.error PyError.runtimeError

/-- Boolean success test for an Except value. -/
def exceptOk : Except PyError RagState → Bool
  | Except.ok _ => true
  | Except.error _ => false

/-- Example corpus row: id a_i, text t_i, url u_i. -/
def exRowA (i : Nat) : ChunkRow :=
  ⟨"a_" ++ toString i, "t" ++ toString i, "u" ++ toString i⟩

/-- Example corpus: six markdown rows in insertion order, no discourse rows. -/
def exDb : KnowledgeDb :=
  ⟨[exRowA 0, exRowA 1, exRowA 2, exRowA 3, exRowA 4, exRowA 5], []⟩

/-- Example id map for six vectors. -/
def exIdMap : List (String × String) :=
  [("0", "a_0"), ("1", "a_1"), ("2", "a_2"), ("3", "a_3"), ("4", "a_4"), ("5", "a_5")]

/-- Example index: six vectors; every query ranks ordinal 1 above ordinal 0. -/
def exIndex : FaissIndex := ⟨6, fun _ => [1, 0, 2, 3, 4, 5]⟩

/-- Example serving state. -/
def exState : RagState := ⟨exDb, exIndex, exIdMap⟩

/-- The six rows of exDb in storage order. -/
def exRows : List ChunkRow :=
  [exRowA 0, exRowA 1, exRowA 2, exRowA 3, exRowA 4, exRowA 5]

/-- Example environment whose generation call succeeds with a good answer
and whose image decoding succeeds. -/
def exEnv : RuntimeEnv :=
  ⟨some "key", fun _ => Except.ok "All good.", fun s => s, fun _ => Except.ok ()⟩

/-- Environment whose generation call always raises. -/
def exEnvFail : RuntimeEnv :=
  ⟨some "key", fun _ => Except.error PyError.otherError, fun s => s, fun _ => Except.ok ()⟩

/-- A state whose index ranks six existing ordinals but whose corpus store
has no rows for the resolved ids: retrieval succeeds with zero passages. -/
def exNoRowsState : RagState := ⟨⟨[], []⟩, ⟨6, fun _ => [0, 1, 2, 3, 4, 5]⟩, exIdMap⟩

/-- Artifacts where both files are present and consistent. -/
def exGoodArtifacts : DiskArtifacts := ⟨true, true, exIndex, exIdMap, exDb⟩

/-- Environment with the generation credential unset. -/
def exEnvNoKey : RuntimeEnv :=
  ⟨none, fun _ => Except.ok "All good.", fun s => s, fun _ => Except.ok ()⟩

/-- C1 counterexample.  The index ranks ordinal 1 (chunk a_1) above
ordinal 0 (chunk a_0), so the similarity order of the resolved ids is
[a_1, a_0, a_2, a_3, a_4, a_5]; but the store returns the rows in table
order and _retrieve passes that order through, so the retrieved chunk list
starts with a_0 — the similarity-rank order is not preserved. -/
theorem c1_counterexample :
    retrieveChunks exState "q" = Except.ok exRows
    ∧ translateIds exState.idMap (exState.index.search "q" TOP_K)
        = Except.ok ["a_1", "a_0", "a_2", "a_3", "a_4", "a_5"]
    ∧ exRows.map ChunkRow.id ≠ ["a_1", "a_0", "a_2", "a_3", "a_4", "a_5"] :=
  ⟨rfl, rfl, by decide⟩

/-- C1 amended.  The rows returned by _retrieve appear in the store's scan
order — a sublist of markdown rows followed by discourse rows, each in
table order — and they are exactly the rows whose id was resolved from the
search ordinals; the similarity-rank order is not restored. -/
theorem c1_amended (st : RagState) (q : String) (rows : List ChunkRow)
    (h : retrieveChunks st q = Except.ok rows) :
    rows.Sublist (st.db.markdown_chunks ++ st.db.discourse_chunks)
    ∧ ∃ ids, translateIds st.idMap (st.index.search q TOP_K) = Except.ok ids
        ∧ ∀ r, r ∈ rows ↔
            ((r ∈ st.db.markdown_chunks ∨ r ∈ st.db.discourse_chunks)
              ∧ ids.contains r.id = true) := by
  unfold retrieveChunks at h
  cases hm : translateIds st.idMap (st.index.search q TOP_K) with
  | error e => rw [hm] at h; exact absurd h (by simp)
  | ok ids =>
    rw [hm] at h
    have hrows : rows = sqlFetch st.db ids := by
      cases h; rfl
    subst hrows
    refine ⟨List.Sublist.append (List.filter_sublist _) (List.filter_sublist _), ids, rfl, ?_⟩
    intro r
    unfold sqlFetch
    simp only [List.mem_append, List.mem_filter]
    constructor
    · rintro (⟨hr, hc⟩ | ⟨hr, hc⟩)
      · exact ⟨Or.inl hr, hc⟩
      · exact ⟨Or.inr hr, hc⟩
    · rintro ⟨hr | hr, hc⟩
      · exact Or.inl ⟨hr, hc⟩
      · exact Or.inr ⟨hr, hc⟩

/-- Witness for c1_amended at the example state. -/
theorem c1_amended_witness :
    exRows.Sublist (exState.db.markdown_chunks ++ exState.db.discourse_chunks)
    ∧ ∃ ids, translateIds exState.idMap (exState.index.search "q" TOP_K) = Except.ok ids
        ∧ ∀ r, r ∈ exRows ↔
            ((r ∈ exState.db.markdown_chunks ∨ r ∈ exState.db.discourse_chunks)
              ∧ ids.contains r.id = true) :=
  c1_amended exState "q" exRows rfl

/-- A state whose FAISS index is empty (zero vectors) with a matching
(empty) id map: the failing input of C3. -/
def exEmptyIndexState : RagState := ⟨⟨[], []⟩, ⟨0, fun _ => []⟩, []⟩

/-- C3.  Against an empty index, FAISS pads all TOP_K result slots with
the label -1; the id-map lookup of "-1" raises KeyError inside _retrieve,
and answer_question propagates the exception instead of returning the
fixed no-relevant-documents answer.  The same happens whenever the index
holds fewer than TOP_K vectors. -/
theorem c3_empty_index_bug :
    retrieveChunks exEmptyIndexState "q" = Except.error PyError.keyError
    ∧ answer_question exEnv exEmptyIndexState "q" none = Except.error PyError.keyError :=
  ⟨rfl, rfl⟩

/-- Artifacts whose index holds one vector while the id map is empty:
an inconsistent pair that init_rag accepts. -/
def exBadArtifacts : DiskArtifacts :=
  ⟨true, true, ⟨1, fun _ => [0]⟩, [], ⟨[], []⟩⟩

/-- C4 counterexample.  init_rag only checks that the two artifact files
exist; it loads a pair whose vector count (1) disagrees with the id map's
entry count (0) and returns a state, instead of failing initialization. -/
theorem c4_counterexample :
    ∃ st, init_rag exBadArtifacts = Except.ok st
      ∧ st.index.ntotal = 1 ∧ st.idMap.length = 0 :=
  ⟨⟨⟨[], []⟩, ⟨1, fun _ => [0]⟩, []⟩, rfl, rfl, rfl⟩

/-- C4 amended.  init_rag fails exactly when one of the two artifact files
is missing; no consistency check between the index's vector count and the
id map's entry count is performed, so initialization succeeds even on a
mismatched pair. -/
theorem c4_amended (a : DiskArtifacts) :
    exceptOk (init_rag a) = (a.indexFilePresent && a.idMapFilePresent) := by
  cases h : a.indexFilePresent && a.idMapFilePresent <;>
    simp [init_rag, exceptOk, h]

/-- C6.  The batched fetch across both partitions, given an empty id set,
returns an empty result (SQLite evaluates the empty IN () list as false)
rather than raising an error. -/
theorem c6_empty_id_set (db : KnowledgeDb) : sqlFetch db [] = [] := by
  unfold sqlFetch
  have hf : ∀ l : List ChunkRow, l.filter (fun r => List.contains [] r.id) = [] := by
    intro l
    induction l with
    | nil => rfl
    | cons a t ih => simp [List.filter, ih]
  rw [hf, hf]
  rfl

/-- Data of a string concatenation is the concatenation of the data. -/
theorem strDataAppend (a b : String) : (a ++ b).data = a.data ++ b.data := rfl

/-- The left operand is a prefix of a string concatenation. -/
theorem strPrefixAppend (a b : String) : a.data <+: (a ++ b).data := by
  rw [strDataAppend]; exact List.prefix_append _ _

/-- The right operand is a suffix of a string concatenation. -/
theorem strSuffixAppend (a b : String) : b.data <:+ (a ++ b).data := by
  rw [strDataAppend]; exact List.suffix_append _ _

/-- A failing or low-quality generation outcome makes the quality gate
produce the fallback answer. -/
theorem qualityGate_fail (o : Except PyError String) (c : String)
    (h : genFails o = true) : qualityGate o c = apologyAnswerOf c := by
  cases o with
  | error e => rfl
  | ok a =>
    have hl : isLowQuality a = true := h
    show (if isLowQuality a then apologyAnswerOf c else a) = apologyAnswerOf c
    rw [if_pos hl]

/-- The answer text is always a prefix of the answer with the image note
appended. -/
theorem appendImageNote_prefix (env : RuntimeEnv) (img : Option String) (a : String) :
    a.data <+: (appendImageNote env img a).data := by
  cases img with
  | none => exact List.prefix_refl _
  | some i =>
    show a.data <+: (if i = "" then a else a ++ "\n\n" ++ handleImage env i).data
    by_cases h : i = ""
    · rw [if_pos h]
    · rw [if_neg h]
      exact (strPrefixAppend a "\n\n").trans (strPrefixAppend (a ++ "\n\n") (handleImage env i))

/-- With a non-empty image payload, two newlines and the image-derived
note form a suffix of the final answer. -/
theorem appendImageNote_suffix (env : RuntimeEnv) (i : String) (hi : i ≠ "") (a : String) :
    ("\n\n" ++ handleImage env i).data <:+ (appendImageNote env (some i) a).data := by
  show ("\n\n" ++ handleImage env i).data
      <:+ (if i = "" then a else a ++ "\n\n" ++ handleImage env i).data
  rw [if_neg hi]
  have h1 : ((a ++ "\n\n") ++ handleImage env i).data
      = a.data ++ ("\n\n" ++ handleImage env i).data := by
    rw [strDataAppend, strDataAppend, strDataAppend, List.append_assoc]
  rw [h1]
  exact List.suffix_append _ _

/-- Evaluation of answer_question on the non-empty retrieval path. -/
theorem answer_question_ok (env : RuntimeEnv) (st : RagState) (q : String)
    (ps : List ChunkRow) (img : Option String)
    (hret : retrieveChunks st q = Except.ok ps) (hne : ps ≠ []) :
    answer_question env st q img = Except.ok
      ⟨appendImageNote env img
          (qualityGate (askAiPipe env.aipipeKey env.chatCall (promptOf ps q)) (contextOf ps)),
        ps.map (fun p => AnswerLink.mk p.source_url (env.shortenFn (replaceNewlines p.text)))⟩ := by
  have he : ps.isEmpty = false := by
    cases ps with
    | nil => exact absurd rfl hne
    | cons a t => rfl
  unfold answer_question
  rw [hret]
  simp [he]

/-- C2.  For every query that retrieves at least one passage, whenever the
generation call fails or its result trips the low-quality gate, the
request still succeeds and the answer begins with the fixed apology
followed by the context truncated to 1500 characters. -/
theorem c2_fallback (env : RuntimeEnv) (st : RagState) (q : String)
    (ps : List ChunkRow) (img : Option String)
    (hret : retrieveChunks st q = Except.ok ps) (hne : ps ≠ [])
    (hbad : genFails (askAiPipe env.aipipeKey env.chatCall (promptOf ps q)) = true) :
    ∃ r, answer_question env st q img = Except.ok r
      ∧ (apologyAnswerOf (contextOf ps)).data <+: r.answer.data := by
  refine ⟨_, answer_question_ok env st q ps img hret hne, ?_⟩
  rw [qualityGate_fail _ _ hbad]
  exact appendImageNote_prefix env img _

/-- Witness for c2_fallback: concrete state, failing generation call. -/
theorem c2_fallback_witness :
    retrieveChunks exState "q" = Except.ok exRows
    ∧ exRows ≠ []
    ∧ genFails (askAiPipe exEnvFail.aipipeKey exEnvFail.chatCall (promptOf exRows "q")) = true
    ∧ ∃ r, answer_question exEnvFail exState "q" none = Except.ok r
        ∧ (apologyAnswerOf (contextOf exRows)).data <+: r.answer.data :=
  ⟨rfl, by decide, rfl,
    c2_fallback exEnvFail exState "q" exRows none rfl (by decide) rfl⟩

/-- Executable suffix test agrees with the suffix relation. -/
theorem endsWithB_iff (t s : List Char) : endsWithB t s = true ↔ t <:+ s := by
  unfold endsWithB
  rw [decide_eq_true_eq, List.suffix_iff_eq_drop, eq_comm]

/-- C5 counterexample.  With a non-null (and non-empty) image payload but
zero retrieved passages, answer_question returns the fixed
no-relevant-documents answer without the image acknowledgment note: the
early return on empty retrieval skips the image step. -/
theorem c5_counterexample :
    answer_question exEnv exNoRowsState "q" (some "abc") = Except.ok ⟨noDocsAnswer, []⟩
    ∧ ¬ (imageNote.data <:+ noDocsAnswer.data) := by
  refine ⟨rfl, ?_⟩
  rw [← endsWithB_iff]
  decide

/-- C5 amended.  When at least one passage is retrieved and the image
payload is a non-empty string, the answer ends with two newlines and the
image-derived note; when the decode succeeds that note is the fixed
acknowledgment.  (With zero retrieved passages, or an empty payload, no
note is appended — see the counterexample.) -/
theorem c5_amended (env : RuntimeEnv) (st : RagState) (q : String)
    (ps : List ChunkRow) (img : String)
    (hret : retrieveChunks st q = Except.ok ps) (hne : ps ≠ []) (himg : img ≠ "") :
    ∃ r, answer_question env st q (some img) = Except.ok r
      ∧ ("\n\n" ++ handleImage env img).data <:+ r.answer.data
      ∧ (env.decodeB64 img = Except.ok () → ("\n\n" ++ imageNote).data <:+ r.answer.data) := by
  refine ⟨_, answer_question_ok env st q ps (some img) hret hne, ?_, ?_⟩
  · exact appendImageNote_suffix env img himg _
  · intro hd
    have hnote : handleImage env img = imageNote := by
      unfold handleImage
      rw [hd]
    rw [← hnote]
    exact appendImageNote_suffix env img himg _

/-- Witness for c5_amended at the example state with a decodable payload. -/
theorem c5_amended_witness :
    retrieveChunks exState "q" = Except.ok exRows
    ∧ exRows ≠ []
    ∧ ("aGk=" : String) ≠ ""
    ∧ ∃ r, answer_question exEnv exState "q" (some "aGk=") = Except.ok r
        ∧ ("\n\n" ++ handleImage exEnv "aGk=").data <:+ r.answer.data
        ∧ (exEnv.decodeB64 "aGk=" = Except.ok () →
            ("\n\n" ++ imageNote).data <:+ r.answer.data) :=
  ⟨rfl, by decide, by decide,
    c5_amended exEnv exState "q" exRows "aGk=" rfl (by decide) (by decide)⟩

/-- C10.  A missing generation credential is not a startup error: init_rag
succeeds whenever both artifact files are present (its result does not
consult the key); with the key unset, _ask_ai_pipe raises RuntimeError for
every prompt regardless of the network behaviour (so no network request is
attempted); and every query that retrieves at least one passage then gets
the fallback answer (fixed apology plus truncated passages) instead of an
error. -/
theorem c10_missing_key :
    (∀ a : DiskArtifacts, a.indexFilePresent = true → a.idMapFilePresent = true →
        ∃ st, init_rag a = Except.ok st)
    ∧ (∀ (call : String → Except PyError String) (prompt : String),
        askAiPipe none call prompt = Except.error PyError.runtimeError)
    ∧ ∀ (env : RuntimeEnv) (st : RagState) (q : String) (ps : List ChunkRow)
        (img : Option String),
        env.aipipeKey = none → retrieveChunks st q = Except.ok ps → ps ≠ [] →
        ∃ r, answer_question env st q img = Except.ok r
          ∧ (apologyAnswerOf (contextOf ps)).data <+: r.answer.data := by
  refine ⟨?_, ?_, ?_⟩
  · intro a h1 h2
    exact ⟨_, by unfold init_rag; rw [h1, h2]; rfl⟩
  · intro call prompt
    rfl
  · intro env st q ps img hk hret hne
    refine ⟨_, answer_question_ok env st q ps img hret hne, ?_⟩
    have hask : askAiPipe env.aipipeKey env.chatCall (promptOf ps q)
        = Except.error PyError.runtimeError := by
      rw [hk]; rfl
    rw [qualityGate_fail _ _ (by rw [hask]; rfl)]
    exact appendImageNote_prefix env img _

/-- Witness for c10_missing_key at concrete inputs. -/
theorem c10_missing_key_witness :
    (∃ st, init_rag exGoodArtifacts = Except.ok st)
    ∧ askAiPipe none (fun _ => Except.ok "hi") "p" = Except.error PyError.runtimeError
    ∧ ∃ r, answer_question exEnvNoKey exState "q" none = Except.ok r
        ∧ (apologyAnswerOf (contextOf exRows)).data <+: r.answer.data :=
  ⟨c10_missing_key.1 exGoodArtifacts rfl rfl,
    c10_missing_key.2.1 _ _,
    c10_missing_key.2.2 exEnvNoKey exState "q" exRows none rfl rfl (by decide)⟩

/-- A chain of occurrences survives prepending text. -/
theorem chain_prepend (ls : List (List Char)) (pre s : List Char)
    (h : ChainProp ls s) : ChainProp ls (pre ++ s) := by
  cases ls with
  | nil => trivial
  | cons p ps =>
    obtain ⟨a, b, hs, hrec⟩ := h
    subst hs
    exact ⟨pre ++ a, b, by simp [List.append_assoc], hrec⟩

/-- Chains over adjacent texts concatenate. -/
theorem chain_append (l1 l2 : List (List Char)) (s1 s2 : List Char)
    (h1 : ChainProp l1 s1) (h2 : ChainProp l2 s2) :
    ChainProp (l1 ++ l2) (s1 ++ s2) := by
  induction l1 generalizing s1 with
  | nil => exact List.nil_append l2 ▸ chain_prepend l2 s1 s2 h2
  | cons p ps ih =>
    obtain ⟨a, b, hs, hrec⟩ := h1
    subst hs
    exact ⟨a, b ++ s2, by simp [List.append_assoc], ih b hrec⟩

/-- A chain may be truncated on the right. -/
theorem chain_truncate (l1 l2 : List (List Char)) (s : List Char)
    (h : ChainProp (l1 ++ l2) s) : ChainProp l1 s := by
  induction l1 generalizing s with
  | nil => trivial
  | cons p ps ih =>
    obtain ⟨a, b, hs, hrec⟩ := h
    exact ⟨a, b, hs, ih b hrec⟩

/-- The head of a chain may be weakened to one of its prefixes. -/
theorem chain_cons_weaken (p q : List Char) (ps : List (List Char)) (s : List Char)
    (hp : q <+: p) (h : ChainProp (p :: ps) s) : ChainProp (q :: ps) s := by
  obtain ⟨a, b, hs, hrec⟩ := h
  obtain ⟨t, ht⟩ := hp
  subst ht
  subst hs
  exact ⟨a, t ++ b, by simp [List.append_assoc], chain_prepend ps t b hrec⟩

/-- The elements of a joined list occur in it, in order and without
overlap. -/
theorem chain_joinSep (sep : String) (xs : List String) :
    ChainProp (xs.map String.data) (joinSep sep xs).data := by
  induction xs with
  | nil => trivial
  | cons x ys ih =>
    cases ys with
    | nil => exact ⟨[], [], by simp [joinSep], trivial⟩
    | cons y zs =>
      refine ⟨[], sep.data ++ (joinSep sep (y :: zs)).data, ?_, ?_⟩
      · show ((x ++ sep) ++ joinSep sep (y :: zs)).data = _
        rw [strDataAppend, strDataAppend]
        simp [List.append_assoc]
      · exact chain_prepend _ sep.data _ ih

/-- The numbered passages and, after them, the question occur in the
prompt in order. -/
theorem chain_prompt (ps : List ChunkRow) (q : String) :
    ChainProp ((taggedPassages ps).map String.data ++ [("Question: " ++ q).data])
      (promptOf ps q).data := by
  have h1 : ChainProp ((taggedPassages ps).map String.data) (contextOf ps).data :=
    chain_joinSep "\n\n" (taggedPassages ps)
  have h2 : ChainProp [("Question: " ++ q).data]
      ((("\n\nQuestion: " ++ q) ++ "\n\nAnswer:") : String).data := by
    refine ⟨"\n\n".data, "\n\nAnswer:".data, ?_, trivial⟩
    rw [strDataAppend, strDataAppend, strDataAppend]
    have hq : "\n\nQuestion: ".data = "\n\n".data ++ "Question: ".data := by decide
    rw [hq]
    simp [List.append_assoc]
  have h3 := chain_prepend _ promptPreamble.data _
    (chain_append _ _ _ _ h1 h2)
  have h4 : (promptOf ps q).data
      = promptPreamble.data ++ ((contextOf ps).data
          ++ ((("\n\nQuestion: " ++ q) ++ "\n\nAnswer:") : String).data) := by
    unfold promptOf
    rw [strDataAppend, strDataAppend, strDataAppend, strDataAppend, strDataAppend]
    simp [List.append_assoc]
  rw [h4]
  exact h3

/-- The cut before the first marker occurrence is a prefix of the text. -/
theorem splitBefore_isPre (m : List Char) (s : List Char) : splitBefore m s <+: s := by
  induction s with
  | nil => exact List.prefix_refl _
  | cons c rest ih =>
    show (if m.isPrefixOf (c :: rest) then [] else c :: splitBefore m rest) <+: c :: rest
    by_cases h : m.isPrefixOf (c :: rest) = true
    · rw [if_pos h]
      exact List.nil_prefix
    · rw [if_neg h]
      obtain ⟨t, ht⟩ := ih
      exact ⟨t, by rw [List.cons_append, ht]⟩

/-- A non-empty marker does not occur in the cut before its first
occurrence. -/
theorem splitBefore_no_marker (m : List Char) (hm : m ≠ []) (s : List Char) :
    containsSub m (splitBefore m s) = false := by
  have hnil : containsSub m [] = false := by
    cases m with
    | nil => exact absurd rfl hm
    | cons a t => rfl
  induction s with
  | nil => exact hnil
  | cons c rest ih =>
    show containsSub m (if m.isPrefixOf (c :: rest) then [] else c :: splitBefore m rest) = false
    by_cases h : m.isPrefixOf (c :: rest) = true
    · rw [if_pos h]
      exact hnil
    · rw [if_neg h]
      show (m.isPrefixOf (c :: splitBefore m rest) || containsSub m (splitBefore m rest)) = false
      rw [ih, Bool.or_false]
      cases hp : m.isPrefixOf (c :: splitBefore m rest) with
      | false => rfl
      | true =>
        exfalso
        have hpre : m <+: c :: splitBefore m rest := List.isPrefixOf_iff_prefix.mp hp
        have hcons : c :: splitBefore m rest <+: c :: rest := by
          obtain ⟨t, ht⟩ := splitBefore_isPre m rest
          exact ⟨t, by rw [List.cons_append, ht]⟩
        exact h (List.isPrefixOf_iff_prefix.mpr (hpre.trans hcons))

/-- When the marker occurs, the cut extended by the marker itself is still
a prefix of the text: the cut happens exactly at the first occurrence. -/
theorem splitBefore_cut (m s : List Char) (h : containsSub m s = true) :
    splitBefore m s ++ m <+: s := by
  induction s with
  | nil =>
    have hm : m = [] := by
      have : m.isEmpty = true := h
      exact List.isEmpty_iff.mp this
    subst hm
    exact List.prefix_refl _
  | cons c rest ih =>
    show (if m.isPrefixOf (c :: rest) then [] else c :: splitBefore m rest) ++ m <+: c :: rest
    by_cases hp : m.isPrefixOf (c :: rest) = true
    · rw [if_pos hp, List.nil_append]
      exact List.isPrefixOf_iff_prefix.mp hp
    · rw [if_neg hp]
      have hrest : containsSub m rest = true := by
        have hh : (m.isPrefixOf (c :: rest) || containsSub m rest) = true := h
        cases (Bool.or_eq_true _ _).mp hh with
        | inl h1 => exact absurd h1 hp
        | inr h1 => exact h1
      obtain ⟨t, ht⟩ := ih hrest
      exact ⟨t, by rw [List.cons_append, List.cons_append, ht]⟩

/-- C9.  For a non-empty retrieved list, the prompt contains each chunk's
cleaned text tagged "(Passage i)" with 1-based ranks in retrieved order,
with the question after all of them ("(Passage 1)" then "(Passage 2)"
occur in that order); the text included for a chunk is a prefix of its
cleaned text, cut exactly at the first occurrence of the image marker "!["
when one occurs (so the included text never contains the marker), and the
full cleaned text otherwise. -/
theorem c9_prompt (ps : List ChunkRow) (q : String) (hne : ps ≠ []) :
    ChainProp ((taggedPassages ps).map String.data ++ [("Question: " ++ q).data])
        (promptOf ps q).data
    ∧ (2 ≤ ps.length →
        ChainProp ["(Passage 1)".data, "(Passage 2)".data] (promptOf ps q).data)
    ∧ ∀ p ∈ ps,
        (cleanPassageText p.text).data <+: (pyStrip (replaceNewlines p.text)).data
        ∧ containsSub imgMarker (cleanPassageText p.text).data = false
        ∧ (containsSub imgMarker (pyStrip (replaceNewlines p.text)).data = true →
            (cleanPassageText p.text).data ++ imgMarker
              <+: (pyStrip (replaceNewlines p.text)).data)
        ∧ (containsSub imgMarker (pyStrip (replaceNewlines p.text)).data = false →
            cleanPassageText p.text = pyStrip (replaceNewlines p.text)) := by
  refine ⟨chain_prompt ps q, ?_, ?_⟩
  · intro h2
    cases ps with
    | nil => exact absurd rfl hne
    | cons p1 ps1 =>
      cases ps1 with
      | nil => simp at h2
      | cons p2 rest =>
        have hch := chain_prompt (p1 :: p2 :: rest) q
        have hch2 : ChainProp [(taggedPassage 1 p1).data, (taggedPassage 2 p2).data]
            (promptOf (p1 :: p2 :: rest) q).data :=
          chain_truncate [(taggedPassage 1 p1).data, (taggedPassage 2 p2).data] _ _ hch
        have htag1 : (taggedPassage 1 p1).data
            = "(Passage 1)".data ++ ([' '] ++ (cleanPassageText p1.text).data) := by
          show ((("(Passage " ++ toString 1) ++ ") ") ++ cleanPassageText p1.text).data = _
          rw [strDataAppend]
          have hd : (("(Passage " ++ toString 1) ++ ") ").data
              = "(Passage 1)".data ++ [' '] := by decide
          rw [hd, List.append_assoc]
        have htag2 : (taggedPassage 2 p2).data
            = "(Passage 2)".data ++ ([' '] ++ (cleanPassageText p2.text).data) := by
          show ((("(Passage " ++ toString 2) ++ ") ") ++ cleanPassageText p2.text).data = _
          rw [strDataAppend]
          have hd : (("(Passage " ++ toString 2) ++ ") ").data
              = "(Passage 2)".data ++ [' '] := by decide
          rw [hd, List.append_assoc]
        have hw1 := chain_cons_weaken _ _ _ _ ⟨_, htag1.symm⟩ hch2
        obtain ⟨a, b, hs, hr⟩ := hw1
        exact ⟨a, b, hs, chain_cons_weaken _ _ _ _ ⟨_, htag2.symm⟩ hr⟩
  · intro p hp
    by_cases hc : containsSub imgMarker (pyStrip (replaceNewlines p.text)).data = true
    · have hcl : cleanPassageText p.text
          = String.mk (splitBefore imgMarker (pyStrip (replaceNewlines p.text)).data) := by
        show (if containsSub imgMarker (pyStrip (replaceNewlines p.text)).data
              then String.mk (splitBefore imgMarker (pyStrip (replaceNewlines p.text)).data)
              else pyStrip (replaceNewlines p.text)) = _
        rw [if_pos hc]
      refine ⟨?_, ?_, ?_, ?_⟩
      · rw [hcl]
        exact splitBefore_isPre _ _
      · rw [hcl]
        exact splitBefore_no_marker _ (by decide) _
      · intro _
        rw [hcl]
        exact splitBefore_cut _ _ hc
      · intro hfalse
        rw [hfalse] at hc
        exact absurd hc (by decide)
    · have hcl : cleanPassageText p.text = pyStrip (replaceNewlines p.text) := by
        show (if containsSub imgMarker (pyStrip (replaceNewlines p.text)).data
              then String.mk (splitBefore imgMarker (pyStrip (replaceNewlines p.text)).data)
              else pyStrip (replaceNewlines p.text)) = _
        rw [if_neg hc]
      refine ⟨?_, ?_, ?_, ?_⟩
      · rw [hcl]
      · rw [hcl]
        exact Bool.eq_false_iff.mpr hc
      · intro htrue
        exact absurd htrue hc
      · intro _
        exact hcl

/-- Witness for c9_prompt at the example rows. -/
theorem c9_prompt_witness :
    exRows ≠ []
    ∧ (ChainProp ((taggedPassages exRows).map String.data ++ [("Question: " ++ "q").data])
          (promptOf exRows "q").data
      ∧ (2 ≤ exRows.length →
          ChainProp ["(Passage 1)".data, "(Passage 2)".data] (promptOf exRows "q").data)
      ∧ ∀ p ∈ exRows,
          (cleanPassageText p.text).data <+: (pyStrip (replaceNewlines p.text)).data
          ∧ containsSub imgMarker (cleanPassageText p.text).data = false
          ∧ (containsSub imgMarker (pyStrip (replaceNewlines p.text)).data = true →
              (cleanPassageText p.text).data ++ imgMarker
                <+: (pyStrip (replaceNewlines p.text)).data)
          ∧ (containsSub imgMarker (pyStrip (replaceNewlines p.text)).data = false →
              cleanPassageText p.text = pyStrip (replaceNewlines p.text))) :=
  ⟨by decide, c9_prompt exRows "q" (by decide)⟩

/-- The runs produced by splitRunsAux concatenate back to the pending run
plus the remaining text. -/
theorem splitRunsAux_flatten (s : List Char) : ∀ (cur : List Char) (b : Bool),
    (splitRunsAux cur b s).flatten = cur.reverse ++ s := by
  induction s with
  | nil =>
    intro cur b
    simp [splitRunsAux]
  | cons c rest ih =>
    intro cur b
    show (if isWrapWs c = b then splitRunsAux (c :: cur) b rest
          else cur.reverse :: splitRunsAux [c] (isWrapWs c) rest).flatten
        = cur.reverse ++ (c :: rest)
    by_cases h : isWrapWs c = b
    · rw [if_pos h, ih]
      simp
    · rw [if_neg h, List.flatten_cons, ih]
      simp

/-- Splitting into runs loses no text. -/
theorem splitRuns_flatten (s : List Char) : (splitRuns s).flatten = s := by
  cases s with
  | nil => rfl
  | cons c rest =>
    show (splitRunsAux [c] (isWrapWs c) rest).flatten = c :: rest
    rw [splitRunsAux_flatten]
    rfl

/-- The chunks taken by takeFits followed by the remainder are the input. -/
theorem takeFits_split (width : Nat) (cs : List (List Char)) : ∀ cur : Nat,
    (takeFits width cur cs).1 ++ (takeFits width cur cs).2 = cs := by
  induction cs with
  | nil => intro cur; rfl
  | cons c rest ih =>
    intro cur
    show (if cur + c.length ≤ width then
            (c :: (takeFits width (cur + c.length) rest).1,
              (takeFits width (cur + c.length) rest).2)
          else ([], c :: rest)).1
        ++ (if cur + c.length ≤ width then
            (c :: (takeFits width (cur + c.length) rest).1,
              (takeFits width (cur + c.length) rest).2)
          else ([], c :: rest)).2 = c :: rest
    by_cases h : cur + c.length ≤ width
    · rw [if_pos h]
      show c :: (takeFits width (cur + c.length) rest).1
          ++ (takeFits width (cur + c.length) rest).2 = c :: rest
      rw [List.cons_append, ih]
    · rw [if_neg h]
      rfl

/-- The chunks taken by takeFits fit in the width (unless none was taken). -/
theorem takeFits_bound (width : Nat) (cs : List (List Char)) : ∀ cur : Nat,
    (takeFits width cur cs).1 = [] ∨ cur + sumLen (takeFits width cur cs).1 ≤ width := by
  induction cs with
  | nil => intro cur; left; rfl
  | cons c rest ih =>
    intro cur
    by_cases h : cur + c.length ≤ width
    · right
      have hstep : (takeFits width cur (c :: rest)).1
          = c :: (takeFits width (cur + c.length) rest).1 := by
        show (if cur + c.length ≤ width then
                (c :: (takeFits width (cur + c.length) rest).1,
                  (takeFits width (cur + c.length) rest).2)
              else ([], c :: rest)).1 = _
        rw [if_pos h]
      rw [hstep]
      have hsum : sumLen (c :: (takeFits width (cur + c.length) rest).1)
          = c.length + sumLen (takeFits width (cur + c.length) rest).1 := by
        simp [sumLen]
      rw [hsum]
      rcases ih (cur + c.length) with h1 | h1
      · rw [h1]
        simpa [sumLen] using h
      · omega
    · left
      show (if cur + c.length ≤ width then
              (c :: (takeFits width (cur + c.length) rest).1,
                (takeFits width (cur + c.length) rest).2)
            else ([], c :: rest)).1 = []
      rw [if_neg h]

/-- Dropping the trailing whitespace piece removes at most one final
chunk. -/
theorem dropTrailing_split (cs : List (List Char)) :
    ∃ d, cs = dropTrailingWsPiece cs ++ d ∧ (d = [] ∨ ∃ w, d = [w]) := by
  induction cs with
  | nil => exact ⟨[], rfl, Or.inl rfl⟩
  | cons c rest ih =>
    cases rest with
    | nil =>
      by_cases h : pyStripEmpty c = true
      · refine ⟨[c], ?_, Or.inr ⟨c, rfl⟩⟩
        show [c] = (if pyStripEmpty c then [] else [c]) ++ [c]
        rw [if_pos h, List.nil_append]
      · refine ⟨[], ?_, Or.inl rfl⟩
        show [c] = (if pyStripEmpty c then [] else [c]) ++ []
        rw [if_neg h, List.append_nil]
    | cons c2 rest2 =>
      obtain ⟨d, hd, hw⟩ := ih
      refine ⟨d, ?_, hw⟩
      show c :: (c2 :: rest2) = (c :: dropTrailingWsPiece (c2 :: rest2)) ++ d
      rw [List.cons_append, ← hd]

/-- The long-word adjustment moves characters between the line and the
remainder without losing any. -/
theorem longWordAdjust_flatten (width curLen : Nat) (fits r : List (List Char)) :
    ((longWordAdjust width curLen fits r).1).flatten
        ++ ((longWordAdjust width curLen fits r).2).flatten
      = fits.flatten ++ r.flatten := by
  cases r with
  | nil => simp [longWordAdjust]
  | cons d rest =>
    by_cases h : width < d.length
    · simp only [longWordAdjust, if_pos h]
      rw [List.flatten_append, List.flatten_cons, List.flatten_cons, List.flatten_cons,
        List.flatten_nil, List.append_nil, List.append_assoc]
      congr 1
      rw [← List.append_assoc, List.take_append_drop]
    · simp [longWordAdjust, h]

/-- When the already accumulated chunks fit, the line after the long-word
adjustment still fits in the width. -/
theorem longWordAdjust_bound (width : Nat) (hw : 1 ≤ width) (fits r : List (List Char))
    (hf : sumLen fits ≤ width) :
    sumLen (longWordAdjust width (sumLen fits) fits r).1 ≤ width := by
  cases r with
  | nil => simpa [longWordAdjust] using hf
  | cons d rest =>
    by_cases h : width < d.length
    · simp only [longWordAdjust, if_pos h]
      rw [if_neg (by omega : ¬ width < 1)]
      have hlen : (d.take (width - sumLen fits)).length ≤ width - sumLen fits := by
        rw [List.length_take]
        exact Nat.min_le_left _ _
      have hsum : sumLen (fits ++ [d.take (width - sumLen fits)])
          = sumLen fits + (d.take (width - sumLen fits)).length := by
        simp [sumLen]
      omega
    · simpa [longWordAdjust, h] using hf

/-- The line assembled from the (possibly emptied) current chunk list. -/
theorem lineOf_if (k : List (List Char)) :
    lineOf (if k.isEmpty then none else some k.flatten) = k.flatten := by
  by_cases h : k.isEmpty = true
  · rw [if_pos h, List.isEmpty_iff.mp h]
    rfl
  · rw [if_neg h]
    rfl

/-- One wrapLine iteration decomposes the text: a possibly dropped
leading-whitespace part, the produced line, a possibly dropped trailing
part, and the text of the remaining chunks, in this order. -/
theorem wrapLine_decomp (width : Nat) (hasLines : Bool) (cs : List (List Char)) :
    ∃ pre mid, cs.flatten
      = pre ++ (lineOf (wrapLine width hasLines cs).1
          ++ (mid ++ (wrapLine width hasLines cs).2.flatten)) := by
  obtain ⟨p0, hp0⟩ : ∃ p0, cs.flatten = p0 ++ (dropLeadingWs hasLines cs).flatten := by
    cases cs with
    | nil => exact ⟨[], rfl⟩
    | cons c rest =>
      by_cases h : (hasLines && pyStripEmpty c) = true
      · refine ⟨c, ?_⟩
        rw [List.flatten_cons]
        congr 1
        show rest.flatten = (if hasLines && pyStripEmpty c then rest else c :: rest).flatten
        rw [if_pos h]
      · refine ⟨[], ?_⟩
        rw [List.nil_append]
        show (c :: rest).flatten
            = (if hasLines && pyStripEmpty c then rest else c :: rest).flatten
        rw [if_neg h]
  simp only [wrapLine]
  generalize hcs1 : dropLeadingWs hasLines cs = cs1 at hp0 ⊢
  have hsplit := takeFits_split width cs1 0
  generalize htf : takeFits width 0 cs1 = tf at hsplit ⊢
  obtain ⟨t, r⟩ := tf
  have hflat := longWordAdjust_flatten width (sumLen t) t r
  generalize hla : longWordAdjust width (sumLen t) t r = la at hflat ⊢
  obtain ⟨la1, la2⟩ := la
  obtain ⟨d, hd, _⟩ := dropTrailing_split la1
  generalize hk : dropTrailingWsPiece la1 = k at hd ⊢
  refine ⟨p0, d.flatten, ?_⟩
  rw [lineOf_if]
  calc cs.flatten = p0 ++ cs1.flatten := hp0
    _ = p0 ++ (t ++ r).flatten := by rw [hsplit]
    _ = p0 ++ (t.flatten ++ r.flatten) := by rw [List.flatten_append]
    _ = p0 ++ (la1.flatten ++ la2.flatten) := by rw [hflat]
    _ = p0 ++ ((k ++ d).flatten ++ la2.flatten) := by rw [← hd]
    _ = p0 ++ (k.flatten ++ (d.flatten ++ la2.flatten)) := by
        rw [List.flatten_append, List.append_assoc]

/-- Every line produced by a wrapLine iteration fits in the width. -/
theorem wrapLine_bound (width : Nat) (hw : 1 ≤ width) (hasLines : Bool)
    (cs : List (List Char)) :
    (lineOf (wrapLine width hasLines cs).1).length ≤ width := by
  simp only [wrapLine]
  generalize dropLeadingWs hasLines cs = cs1
  have hb := takeFits_bound width cs1 0
  generalize htf : takeFits width 0 cs1 = tf at hb ⊢
  obtain ⟨t, r⟩ := tf
  dsimp only at hb ⊢
  have ht : sumLen t ≤ width := by
    rcases hb with h1 | h1
    · rw [h1]
      exact Nat.zero_le width
    · omega
  have hla := longWordAdjust_bound width hw t r ht
  generalize hlaeq : longWordAdjust width (sumLen t) t r = la at hla ⊢
  obtain ⟨la1, la2⟩ := la
  dsimp only at hla ⊢
  obtain ⟨d, hd, _⟩ := dropTrailing_split la1
  generalize hk : dropTrailingWsPiece la1 = k at hd ⊢
  rw [lineOf_if]
  have hlen : la1.flatten.length = sumLen la1 := List.length_flatten la1
  have hklen : k.flatten.length ≤ la1.flatten.length := by
    rw [hd, List.flatten_append, List.length_append]
    omega
  omega

/-- The lines assembled by the wrap loop occur in the chunk text in order
and without overlap, for any fuel. -/
theorem wrapChunks_chain (width : Nat) (f : Nat) : ∀ (hasLines : Bool)
    (cs : List (List Char)),
    ChainProp (wrapChunksFuel width f hasLines cs) cs.flatten := by
  induction f with
  | zero => intro hasLines cs; trivial
  | succ f ih =>
    intro hasLines cs
    cases cs with
    | nil => trivial
    | cons c rest =>
      obtain ⟨pre, mid, hdec⟩ := wrapLine_decomp width hasLines (c :: rest)
      simp only [wrapChunksFuel]
      cases hl : (wrapLine width hasLines (c :: rest)).1 with
      | none =>
        rw [hl] at hdec
        simp only [lineOf, List.nil_append] at hdec
        rw [hdec]
        exact chain_prepend _ pre _ (chain_prepend _ mid _ (ih hasLines _))
      | some l =>
        rw [hl] at hdec
        simp only [lineOf] at hdec
        rw [hdec]
        refine ⟨pre, mid ++ (wrapLine width hasLines (c :: rest)).2.flatten, ?_, ?_⟩
        · simp [List.append_assoc]
        · exact chain_prepend _ mid _ (ih true _)

/-- Every line assembled by the wrap loop fits in the width, for any
fuel. -/
theorem wrapChunks_bound (width : Nat) (hw : 1 ≤ width) (f : Nat) : ∀ (hasLines : Bool)
    (cs : List (List Char)) (l : List Char),
    l ∈ wrapChunksFuel width f hasLines cs → l.length ≤ width := by
  induction f with
  | zero => intro hasLines cs l hl; cases hl
  | succ f ih =>
    intro hasLines cs l hl
    cases cs with
    | nil => cases hl
    | cons c rest =>
      simp only [wrapChunksFuel] at hl
      cases hw1 : (wrapLine width hasLines (c :: rest)).1 with
      | none =>
        rw [hw1] at hl
        exact ih hasLines _ l hl
      | some l0 =>
        rw [hw1] at hl
        have hl' : l = l0 ∨ l ∈ wrapChunksFuel width f true (wrapLine width hasLines (c :: rest)).2 := by
          simpa using hl
        cases hl' with
        | inl h =>
          subst h
          have hb := wrapLine_bound width hw hasLines (c :: rest)
          rw [hw1] at hb
          simpa [lineOf] using hb
        | inr h => exact ih true _ l h

/-- ChainProp agrees with its executable search. -/
theorem chain_iff (ps : List (List Char)) : ∀ s : List Char,
    ChainProp ps s ↔ chainB ps s = true := by
  induction ps with
  | nil =>
    intro s
    simp [ChainProp, chainB]
  | cons p ts ih =>
    intro s
    constructor
    · rintro ⟨a, b, hs, hrec⟩
      subst hs
      show chainB (p :: ts) ((a ++ p) ++ b) = true
      unfold chainB
      rw [List.any_eq_true]
      refine ⟨a.length, List.mem_range.mpr ?_, ?_⟩
      · simp [List.length_append]
        omega
      · rw [Bool.and_eq_true, decide_eq_true_eq]
        constructor
        · rw [List.append_assoc, List.drop_left, List.take_left]
        · have hd : ((a ++ p) ++ b).drop (a.length + p.length) = b := by
            have h0 : ((a ++ p) ++ b).drop (a ++ p).length = b := List.drop_left _ _
            rw [List.length_append] at h0
            exact h0
          rw [hd]
          exact (ih b).mp hrec
    · intro h
      unfold chainB at h
      rw [List.any_eq_true] at h
      obtain ⟨i, _, hcond⟩ := h
      rw [Bool.and_eq_true, decide_eq_true_eq] at hcond
      obtain ⟨htake, hrec⟩ := hcond
      refine ⟨s.take i, s.drop (i + p.length), ?_, (ih _).mpr hrec⟩
      have h1 : s.drop i = p ++ s.drop (i + p.length) := by
        conv_lhs => rw [← List.take_append_drop p.length (s.drop i)]
        rw [htake, List.drop_drop]
      calc s = s.take i ++ s.drop i := (List.take_append_drop i s).symm
        _ = s.take i ++ (p ++ s.drop (i + p.length)) := by rw [h1]
        _ = (s.take i ++ p) ++ s.drop (i + p.length) := by rw [List.append_assoc]

/-- C7 counterexample.  On the document "a\nb" the chunker produces the
single chunk "a b": the newline was replaced by a space, so the chunk is
not a verbatim substring of the document and no in-order non-overlapping
verbatim embedding of the chunks into the document exists. -/
theorem c7_counterexample :
    ¬ ChainProp ((chunkDocument "a\nb").map String.data) ("a\nb".data) := by
  rw [chain_iff]
  decide

/-- C7 amended.  For every document, the chunks occur verbatim, in order
and without overlap, in the whitespace-normalized document (tabs expanded
to 8-column stops, every whitespace character replaced by a space) — the
text dropped between chunks is chunk-boundary whitespace.  They are not in
general substrings of the raw document, and a word longer than the budget
is broken mid-word. -/
theorem c7_amended (body : String) :
    ChainProp ((chunkDocument body).map String.data) (munge body.data) := by
  have h1 := wrapChunks_chain CHUNK_SIZE
      (sumLen (splitRuns (munge body.data)) + (splitRuns (munge body.data)).length + 1)
      false (splitRuns (munge body.data))
  rw [splitRuns_flatten] at h1
  have h2 : (chunkDocument body).map String.data
      = wrapChunksFuel CHUNK_SIZE
          (sumLen (splitRuns (munge body.data)) + (splitRuns (munge body.data)).length + 1)
          false (splitRuns (munge body.data)) := by
    show ((wrapChunksFuel CHUNK_SIZE
        (sumLen (splitRuns (munge body.data)) + (splitRuns (munge body.data)).length + 1)
        false (splitRuns (munge body.data))).map String.mk).map String.data = _
    rw [List.map_map]
    have hid : (String.data ∘ String.mk) = id := by
      funext l
      rfl
    rw [hid, List.map_id]
  rw [h2]
  exact h1

/-- C8.  Every chunk the chunker produces, the final chunk of a document
included, has at most CHUNK_SIZE = 1000 characters. -/
theorem c8_chunk_size (body : String) : ∀ c ∈ chunkDocument body, c.length ≤ CHUNK_SIZE := by
  intro c hc
  have hmem : c ∈ (wrapChunksFuel CHUNK_SIZE
      (sumLen (splitRuns (munge body.data)) + (splitRuns (munge body.data)).length + 1)
      false (splitRuns (munge body.data))).map String.mk := hc
  rw [List.mem_map] at hmem
  obtain ⟨l, hl, hcl⟩ := hmem
  have hb := wrapChunks_bound CHUNK_SIZE (by decide) _ false _ l hl
  rw [← hcl]
  exact hb

/-- Witness for c8_chunk_size on a concrete document. -/
theorem c8_chunk_size_witness :
    ("hello" : String) ∈ chunkDocument "hello" ∧ ("hello" : String).length ≤ CHUNK_SIZE :=
  ⟨by decide, c8_chunk_size "hello" "hello" (by decide)⟩
